import Mathlib

/-!
Verification of the ALPINE Explorer / PeakBagger result aggregator
(src/peakbagger/main.py, with src/alpineexplorer/main.py an earlier draft of
the same module).  The Python functions are shallowly embedded as executable
Lean definitions:

* Python strings are modelled as `String` / `List Char`; `str.replace` is
  modelled by `pyReplace`, which substitutes every non-overlapping occurrence
  of the pattern scanning left to right, exactly as Python's `str.replace`
  with no count argument does.
* `glob.glob` is modelled as a function from the glob pattern to the list of
  matches (`GlobFS`).  Python's `glob` swallows listing errors and returns a
  list, so the embedded `define_search_tree` is total.
* A Python `dict` is modelled as an association list with Python's insertion
  semantics (`pyInsert`): inserting an existing key overwrites its value in
  place, a new key is appended.
* Polars dataframes read by the statistics pipeline are modelled by
  `DataFrame` (column names plus rows of nullable integers); `pl.read_csv` on
  a missing path raises, modelled as `Except.error`.  Polars arithmetic on
  nullable columns propagates null through every elementwise operation.
  True division of integer columns by zero yields null (there is no integer
  infinity), while float division by zero follows IEEE-754 and yields
  inf / -inf / NaN; `Float64` values are modelled by `PFloat`, exact rational
  arithmetic plus the special values (the claims treated here depend only on
  null / zero / infinity behaviour, never on rounding).  `pl.concat_str`
  propagates null: a null component nullifies the row's result.
* The metadata consolidator's staging file is modelled as the list of
  tab-separated lines written to it (`stageMeta`); `sink_ipc` materialises an
  output exactly when at least one geography contributed, and `scan_ipc` on a
  path that was never produced (a fresh working directory) raises, modelled
  as `Except.error`.
-/

namespace PeakBagger

/-! ## Python strings and `str.replace` -/

/-- Fuel-driven core of Python's `str.replace`: replace every non-overlapping
occurrence of `pat` by `rep`, scanning left to right.  The fuel is the length
of the scanned list, so the wrapper `pyReplace` always supplies enough. -/
def pyReplaceFuel (pat rep : List Char) : Nat → List Char → List Char
  | 0, s => s
  | _ + 1, [] => []
  | n + 1, c :: cs =>
    if pat.isPrefixOf (c :: cs) then
      rep ++ pyReplaceFuel pat rep n (List.drop pat.length (c :: cs))
    else
      c :: pyReplaceFuel pat rep n cs

/-- Python's `s.replace(pat, rep)` on `List Char`, for a nonempty pattern. -/
def pyReplace (pat rep s : List Char) : List Char :=
  pyReplaceFuel pat rep s.length s

/-- The three dataset source markers removed by `_clean_string`. -/
def ldPat : List Char := "LocalDataset_".toList

/-- GISAID marker. -/
def gisPat : List Char := "GISAID_".toList

/-- GenBank marker. -/
def gbPat : List Char := "GenBank_".toList

/-- Character-level body of `_clean_string`
(src/peakbagger/main.py lines 100-118, identical in src/alpineexplorer):
`subdir_name.replace("LocalDataset_", "").replace("GISAID_", "")
.replace("GenBank_", "").replace("_", " ")`. -/
def cleanChars (s : List Char) : List Char :=
  pyReplace "_".toList " ".toList
    (pyReplace gbPat [] (pyReplace gisPat [] (pyReplace ldPat [] s)))

/-- The source's `_clean_string`, lifted to `String`. -/
def clean_string (s : String) : String :=
  (cleanChars s.toList).asString

/-- Removal of only the first occurrence of `pat` (what the claim's words
"removing the first occurrence" describe; Python's `str.replace` does not
behave like this). -/
def removeFirst (pat : List Char) : List Char → List Char
  | [] => []
  | c :: cs =>
    if pat.isPrefixOf (c :: cs) then List.drop pat.length (c :: cs)
    else c :: removeFirst pat cs

/-- Replace every underscore by a space, pointwise. -/
def substUnderscore (c : Char) : Char :=
  if c = '_' then ' ' else c

/-- The claim's stated cleaning function: remove the FIRST occurrence of each
marker ("LocalDataset_", then "GISAID_", then "GenBank_"), then replace every
underscore with a space. -/
def cleanStringSpecFirst (s : String) : String :=
  ((removeFirst gbPat (removeFirst gisPat (removeFirst ldPat s.toList))).map
    substUnderscore).asString

/-- Index of the first occurrence of `pat` in `s`, if any. -/
def firstOcc (pat : List Char) : List Char → Option Nat
  | [] => if pat.isPrefixOf ([] : List Char) then some 0 else none
  | c :: cs =>
    if pat.isPrefixOf (c :: cs) then some 0
    else (firstOcc pat cs).map (fun i => i + 1)

/-- Fuel-driven removal of every occurrence of `pat`, formulated by repeatedly
cutting out the leftmost occurrence and continuing after it. -/
def removeEveryFuel (pat : List Char) : Nat → List Char → List Char
  | 0, s => s
  | n + 1, s =>
    match firstOcc pat s with
    | none => s
    | some i => List.take i s ++ removeEveryFuel pat n (List.drop (i + pat.length) s)

/-- Removal of every occurrence of `pat` from `s` (leftmost-cut formulation,
used as the independently stated meaning of "remove every occurrence"). -/
def removeEvery (pat s : List Char) : List Char :=
  removeEveryFuel pat s.length s

/-! ## Search-tree construction -/

/-- The `SearchBranch` dataclass (src/peakbagger/main.py lines 34-47). -/
structure SearchBranch where
  parent_dir : String
  geography : String
  double : Option String
  anachron : Option String
  highdist : Option String
  early_stats : Option String
  late_stats : Option String
deriving DecidableEq

/-- The `StarterPaths` dataclass (lines 50-60): parallel lists of clean
geography names and per-geography result directories. -/
structure StarterPaths where
  geo : List String
  path : List String
deriving DecidableEq

/-- Model of `glob.glob`: the list of filesystem matches for a glob pattern.
Python's glob suppresses listing errors (returning an empty list), so it is a
total function. -/
abbrev GlobFS := String → List String

/-- One branch of the search tree as `define_search_tree` builds it
(lines 175-190): five glob searches below `path`, storing the first match or
`None` when there is no match. -/
def mkBranch (fs : GlobFS) (geo path : String) : SearchBranch :=
  { parent_dir := path
    geography := geo
    double := (fs (path ++ "/*double_candidates")).head?
    anachron := (fs (path ++ "/*metadata_candidates")).head?
    highdist := (fs (path ++ "/*high_distance_clusters")).head?
    early_stats := (fs (path ++ "/*early_stats.tsv")).head?
    late_stats := (fs (path ++ "/*late_stats.tsv")).head? }

/-- Python `dict` insertion: an existing key's value is overwritten in place,
a new key is appended at the end. -/
def pyInsert {α : Type} (k : String) (v : α) : List (String × α) → List (String × α)
  | [] => [(k, v)]
  | (k', v') :: rest =>
    if k' = k then (k, v) :: rest else (k', v') :: pyInsert k v rest

/-- Python `dict` lookup. -/
def pyLookup {α : Type} (k : String) : List (String × α) → Option α
  | [] => none
  | (k', v) :: rest => if k' = k then some v else pyLookup k rest

/-- The loop of `define_search_tree`: successive `search_tree[geo] = ...`
assignments over `zip(start_paths.geo, start_paths.path)`. -/
def buildTree (fs : GlobFS) : List (String × String) → List (String × SearchBranch) →
    List (String × SearchBranch)
  | [], acc => acc
  | (g, p) :: rest, acc => buildTree fs rest (pyInsert g (mkBranch fs g p) acc)

/-- The source's `define_search_tree` (lines 152-192).  It has no failure
path: it always returns `Ok`. -/
def define_search_tree (fs : GlobFS) (sp : StarterPaths) :
    Except String (List (String × SearchBranch)) :=
  .ok (buildTree fs (sp.geo.zip sp.path) [])

/-- The source's `construct_file_paths` (lines 121-149).  The `os.listdir`
plus `isdir` filtering is abstracted into the given list of subdirectory
names; `os.path.join` is modelled by "/"-concatenation. -/
def construct_file_paths (result_root : String) (subdirs : List String) :
    Except String StarterPaths :=
  if subdirs.length = 0 then
    .error "No subdirectories found in provided results directory."
  else
    .ok { geo := subdirs.map clean_string
          path := subdirs.map (fun d => result_root ++ "/" ++ d) }

/-- Directory of the last pair in the list whose geography component is `g`. -/
def lastMatchPath (g : String) : List (String × String) → Option String
  | [] => none
  | (k, p) :: rest =>
    match lastMatchPath g rest with
    | some q => some q
    | none => if k = g then some p else none

/-- Specification of "store `None` on zero matches, otherwise the first
match": relates a glob result list to the stored optional path. -/
def firstMatchSpec (ms : List String) (stored : Option String) : Prop :=
  (ms = [] → stored = none) ∧ ∀ x xs, ms = x :: xs → stored = some x

/-! ## Statistics pipeline -/

/-- A parsed tab-separated file as the statistics readers use it: column
names and data rows of nullable integers (the `num_seqs` values; the
anachronistic / high-distance readers use only the row count). -/
structure DataFrame where
  cols : List String
  rows : List (List (Option Int))
deriving DecidableEq

/-- Filesystem seen by `pl.read_csv` in the statistics pipeline: `none` for a
path that does not exist or cannot be parsed. -/
abbrev StatsFS := String → Option DataFrame

/-- Model of `pl.read_csv(path, separator="\t")`: raises (here,
`Except.error`) when the file is missing. -/
def readCsv (fs : StatsFS) (path : String) : Except String DataFrame :=
  match fs path with
  | some df => .ok df
  | none => .error ("FileNotFoundError: " ++ path)

/-- Cell of a row at column index `i` (`null` when absent). -/
def getCell (row : List (Option Int)) (i : Nat) : Option Int :=
  (row[i]?).join

/-- Shared body of `_get_early_count` / `_get_late_count` applied to an open
dataframe: `stats_df.select(pl.col(["num_seqs"])).to_series().to_list()[0]`.
A missing `num_seqs` column raises `ColumnNotFoundError`; zero data rows make
the `[0]` indexing raise `IndexError`. -/
def numSeqsFirst (df : DataFrame) : Except String (Option Int) :=
  match List.findIdx? (fun c => c = "num_seqs") df.cols with
  | none => .error "ColumnNotFoundError: num_seqs"
  | some i =>
    match df.rows with
    | [] => .error "IndexError: list index out of range"
    | r :: _ => .ok (getCell r i)

/-- The source's `_get_early_count` (lines 195-219): `None` propagates,
otherwise the first `num_seqs` value of the file at `path`. -/
def get_early_count (fs : StatsFS) : Option String → Except String (Option Int)
  | none => .ok none
  | some path =>
    match readCsv fs path with
    | .error e => .error e
    | .ok df => numSeqsFirst df

/-- The source's `_get_late_count` (lines 222-248), textually the same
computation as `_get_early_count`. -/
def get_late_count (fs : StatsFS) : Option String → Except String (Option Int)
  | none => .ok none
  | some path =>
    match readCsv fs path with
    | .error e => .error e
    | .ok df => numSeqsFirst df

/-- The source's `_summarize_anachrons` (lines 251-276): `None` propagates,
otherwise the data-row count of the fixed-name TSV inside the directory.
There is no existence check before `pl.read_csv`, so a missing file
raises. -/
def summarize_anachrons (fs : StatsFS) : Option String → Except String (Option Int)
  | none => .ok none
  | some path =>
    match readCsv fs (path ++ "/anachronistic_metadata_only_candidates.tsv") with
    | .error e => .error e
    | .ok df => .ok (some (df.rows.length : Int))

/-- The source's `_summarize_highdist` (lines 279-304). -/
def summarize_highdist (fs : StatsFS) : Option String → Except String (Option Int)
  | none => .ok none
  | some path =>
    match readCsv fs (path ++ "/high_distance_candidates.tsv") with
    | .error e => .error e
    | .ok df => .ok (some (df.rows.length : Int))

/-- A Polars `Float64` value: exact rational for the finite values plus the
IEEE-754 special values. -/
inductive PFloat where
  | nan : PFloat
  | inf : PFloat
  | neginf : PFloat
  | fin : ℚ → PFloat
deriving DecidableEq

/-- Polars true division of nullable `Int64` values (elementwise semantics of
`pl.col(a) / pl.col(b)` on integer columns): null propagates, and integer
division by zero yields null (integers have no infinity; Polars masks the
zero-denominator entries as null in the `Float64` result). -/
def intTrueDiv : Option Int → Option Int → Option PFloat
  | some a, some b =>
    if b = 0 then none else some (.fin ((a : ℚ) / (b : ℚ)))
  | _, _ => none

/-- Multiplication of a `Float64` by the literal 100. -/
def pfMul100 : PFloat → PFloat
  | .nan => .nan
  | .inf => .inf
  | .neginf => .neginf
  | .fin q => .fin (q * 100)

/-- A prevalence column: `(count / input) * 100` with Polars null semantics
(src/peakbagger/main.py lines 344-349, 374-379, 401-406). -/
def prevalence (count input : Option Int) : Option PFloat :=
  (intTrueDiv count input).map pfMul100

/-- IEEE-754 division on `Float64` values (Polars float division follows
IEEE-754: a nonzero value divided by zero is a signed infinity, zero by zero
is NaN).  Finite-by-finite division is exact rational division; the model has
no signed zero. -/
def pfDiv : PFloat → PFloat → PFloat
  | .nan, _ => .nan
  | _, .nan => .nan
  | .inf, .inf => .nan
  | .inf, .neginf => .nan
  | .neginf, .inf => .nan
  | .neginf, .neginf => .nan
  | .inf, .fin b => if b < 0 then .neginf else .inf
  | .neginf, .fin b => if b < 0 then .inf else .neginf
  | .fin _, .inf => .fin 0
  | .fin _, .neginf => .fin 0
  | .fin a, .fin b =>
    if b = 0 then
      if a = 0 then .nan else if a > 0 then .inf else .neginf
    else .fin (a / b)

/-- `Float64` floor (`Expr.floor` in Polars): identity on the special
values. -/
def pfFloor : PFloat → PFloat
  | .nan => .nan
  | .inf => .inf
  | .neginf => .neginf
  | .fin q => .fin ((Rat.floor q : Int) : ℚ)

/-- Cast of a `Float64` to `Utf8` (Polars `.cast(pl.Utf8)`): the special
values render as "inf", "-inf", "NaN"; an integral finite value renders as
its integer digits, any other finite value through the rational's rendering
(the claims settled here never depend on the non-integral finite case). -/
def pfToString : PFloat → String
  | .nan => "NaN"
  | .inf => "inf"
  | .neginf => "-inf"
  | .fin q => if q.den = 1 then toString q.num else toString q

/-- A rate column (lines 351-361, 381-391, 408-418):
`concat_str([lit "1 in ", (1 / (prev / 100)).floor().cast(Utf8)])` with
null propagation through the elementwise operations and through
`concat_str`. -/
def rateCol (prev : Option PFloat) : Option String :=
  prev.map (fun p =>
    "1 in " ++ pfToString (pfFloor (pfDiv (.fin 1) (pfDiv p (.fin 100)))))

/-- One row of the summary table `stats_pipeline` builds. -/
structure StatsRow where
  geography : String
  input : Option Int
  doubleCount : Option Int
  doublePrev : Option PFloat
  doubleRate : Option String
  anachronCount : Option Int
  anachronPrev : Option PFloat
  anachronRate : Option String
  highdistCount : Option Int
  highdistPrev : Option PFloat
  highdistRate : Option String
deriving DecidableEq

/-- Assembly of one geography's row from the four reader results, with every
derived column exactly as the pipeline's Polars expressions compute it. -/
def mkStatsRow (geo : String) (inp lateC anaC highC : Option Int) : StatsRow :=
  { geography := geo
    input := inp
    doubleCount := lateC
    doublePrev := prevalence lateC inp
    doubleRate := rateCol (prevalence lateC inp)
    anachronCount := anaC
    anachronPrev := prevalence anaC inp
    anachronRate := rateCol (prevalence anaC inp)
    highdistCount := highC
    highdistPrev := prevalence highC inp
    highdistRate := rateCol (prevalence highC inp) }

/-- Row-wise combination of the geography names and the four count columns. -/
def buildRows : List String → List (Option Int) → List (Option Int) →
    List (Option Int) → List (Option Int) → List StatsRow
  | g :: gs, i :: is, l :: ls, a :: bs, h :: hs =>
    mkStatsRow g i l a h :: buildRows gs is ls bs hs
  | _, _, _, _, _ => []

/-- A Python list comprehension over fallible calls: results in order, the
first raised exception aborting the whole comprehension. -/
def mapME {α β : Type} (f : α → Except String β) : List α → Except String (List β)
  | [] => .ok []
  | a :: l =>
    match f a with
    | .error e => .error e
    | .ok b =>
      match mapME f l with
      | .error e => .error e
      | .ok bs => .ok (b :: bs)

/-- The source's `stats_pipeline` (lines 307-423).  The four reader columns
are evaluated in source order (early, late, anachronistic, high-distance),
each as a list comprehension whose first exception aborts the run; the
derived prevalence / rate columns are pure Polars expressions.  An empty
result table is the only handled error (`Err`). -/
def stats_pipeline (fs : StatsFS) (tree : List (String × SearchBranch)) :
    Except String (List StatsRow) :=
  match mapME (fun gb => get_early_count fs gb.2.early_stats) tree with
  | .error e => .error e
  | .ok inputs =>
    match mapME (fun gb => get_late_count fs gb.2.late_stats) tree with
    | .error e => .error e
    | .ok lates =>
      match mapME (fun gb => summarize_anachrons fs gb.2.anachron) tree with
      | .error e => .error e
      | .ok anas =>
        match mapME (fun gb => summarize_highdist fs gb.2.highdist) tree with
        | .error e => .error e
        | .ok highs =>
          if (buildRows (tree.map (fun gb => gb.1)) inputs lates anas highs).length = 0
          then .error "No results could be compiled."
          else .ok (buildRows (tree.map (fun gb => gb.1)) inputs lates anas highs)

/-! ## Metadata consolidator -/

/-- A metadata table as the consolidator sees it: a header of column names
and data rows of string fields. -/
structure StrTable where
  header : List String
  rows : List (List String)
deriving DecidableEq

/-- Filesystem seen by the consolidator: `os.path.isfile` holds exactly when
the map yields a table, and `pl.read_csv` then parses that table. -/
abbrev MetaFS := String → Option StrTable

/-- The three metadata categories `compile_metadata` consolidates, naming the
`SearchBranch` attribute each one reads. -/
inductive MetaField where
  | anachron : MetaField
  | highdist : MetaField
  | double : MetaField
deriving DecidableEq

/-- Python's `getattr(branch, branch_name)`. -/
def getField (b : SearchBranch) : MetaField → Option String
  | .anachron => b.anachron
  | .highdist => b.highdist
  | .double => b.double

/-- Python's f-string rendering of an `Optional[str]`: `None` renders as the
four characters "None". -/
def pyStrOfOption : Option String → String
  | none => "None"
  | some s => s

/-- The path `f"{getattr(branch, branch_name)}/{filename}"` built by
`_search_tree_meta` (line 453). -/
def metaPath (filename : String) (p : Option String) : String :=
  pyStrOfOption p ++ "/" ++ filename

/-- Polars `with_columns(pl.lit(geo).alias("Geography"))`: appends a
`Geography` column holding `geo` on every row, or overwrites such a column in
place when the table already has one. -/
def tagGeography (geo : String) (t : StrTable) : StrTable :=
  match List.findIdx? (fun c => c = "Geography") t.header with
  | some i => { header := t.header, rows := t.rows.map (fun r => r.set i geo) }
  | none => { header := t.header ++ ["Geography"],
              rows := t.rows.map (fun r => r ++ [geo]) }

/-- Does this geography contribute to the category: its expected file exists
at the constructed path. -/
def isContrib (fs : MetaFS) (field : MetaField) (filename : String)
    (gb : String × SearchBranch) : Bool :=
  (fs (metaPath filename (getField gb.2 field))).isSome

/-- The tagged table a contributing geography stages, empty for a
non-contributor. -/
def taggedRows (fs : MetaFS) (field : MetaField) (filename : String)
    (gb : String × SearchBranch) : List (List String) :=
  match fs (metaPath filename (getField gb.2 field)) with
  | some t => (tagGeography gb.1 t).rows
  | none => []

/-- The staging loop of `_search_tree_meta` (lines 448-469): `ticker` counts
contributors; the first contributor opens the staging file in mode "w" and
writes its header and rows, every later one appends its rows without a
header. -/
def stageMeta (fs : MetaFS) (field : MetaField) (filename : String) :
    List (String × SearchBranch) → Nat → List (List String) →
    Nat × List (List String)
  | [], t, acc => (t, acc)
  | gb :: rest, t, acc =>
    match fs (metaPath filename (getField gb.2 field)) with
    | none => stageMeta fs field filename rest t acc
    | some tbl =>
      if t = 0 then
        stageMeta fs field filename rest 1
          ((tagGeography gb.1 tbl).header :: (tagGeography gb.1 tbl).rows)
      else
        stageMeta fs field filename rest (t + 1) (acc ++ (tagGeography gb.1 tbl).rows)

/-- The source's `_search_tree_meta` (lines 426-474): the staged lines are
materialised (`sink_ipc`) exactly when `ticker > 0`; with zero contributors
no output file is produced for the category. -/
def search_tree_meta (fs : MetaFS) (tree : List (String × SearchBranch))
    (field : MetaField) (filename : String) : Option (List (List String)) :=
  let r := stageMeta fs field filename tree 0 []
  if r.1 = 0 then none else some r.2

/-- The `CompiledMeta` dataclass (lines 63-73), holding the three scanned
consolidated tables. -/
structure CompiledMeta where
  anachron : List (List String)
  highdist : List (List String)
  double : List (List String)
deriving DecidableEq

/-- Model of `pl.scan_ipc` over the arrow files this run produced (a fresh
working directory): scanning a category whose file was never written
raises. -/
def scan_ipc (produced : Option (List (List String))) (nm : String) :
    Except String (List (List String)) :=
  match produced with
  | some t => .ok t
  | none => .error ("FileNotFoundError: " ++ nm)

/-- The source's `compile_metadata` (lines 477-519): stage and materialise
the three categories, then unconditionally scan all three arrow files. -/
def compile_metadata (fs : MetaFS) (tree : List (String × SearchBranch)) :
    Except String CompiledMeta :=
  let a := search_tree_meta fs tree .anachron "anachronistic_metadata_only_candidates.tsv"
  let h := search_tree_meta fs tree .highdist "high_distance_candidates.tsv"
  let d := search_tree_meta fs tree .double "double_candidate_metadata.tsv"
  match scan_ipc a "anachronistics-meta.arrow" with
  | .error e => .error e
  | .ok ta =>
    match scan_ipc h "highdist-meta.arrow" with
    | .error e => .error e
    | .ok th =>
      match scan_ipc d "double-meta.arrow" with
      | .error e => .error e
      | .ok td => .ok { anachron := ta, highdist := th, double := td }

/-! ## Concrete instances used by the witness theorems -/

/-- A filesystem in which every glob search has zero matches. -/
def globEmpty : GlobFS := fun _ => []

/-- A filesystem for the search-tree witness: one geography directory with a
double-candidates match (two matches, the first stored) and no other
artifacts. -/
def globW : GlobFS := fun pat =>
  if pat = "r/G/*double_candidates" then
    ["r/G/a_double_candidates", "r/G/b_double_candidates"]
  else []

/-- Starter paths for the search-tree witness. -/
def spW : StarterPaths :=
  { geo := ["G"], path := ["r/G"] }

/-- Starter paths for the duplicate-clean-name witness: both raw directories
clean to "North America". -/
def spC10 : StarterPaths :=
  { geo := ["North America", "North America"]
    path := ["res/GISAID_North_America", "res/GenBank_North_America"] }

/-- The search tree the duplicate-clean-name witness produces: one entry,
holding the branch built from the later raw directory. -/
def treeC10 : List (String × SearchBranch) :=
  [("North America", mkBranch globEmpty "North America" "res/GenBank_North_America")]

/-- A statistics filesystem with no files at all. -/
def fsEmpty : StatsFS := fun _ => none

/-- A geography branch with every artifact absent. -/
def brNull : SearchBranch :=
  { parent_dir := "r/B", geography := "B", double := none, anachron := none,
    highdist := none, early_stats := none, late_stats := none }

/-- A one-geography search tree whose single branch has no artifacts. -/
def treeNull : List (String × SearchBranch) := [("B", brNull)]

/-- Statistics filesystem for the zero-prevalence run: 1000 input sequences,
0 double candidates. -/
def fsZeroPrev : StatsFS := fun p =>
  if p = "r/S/early_stats.tsv" then
    some { cols := ["num_seqs"], rows := [[some 1000]] }
  else if p = "r/S/late_stats.tsv" then
    some { cols := ["num_seqs"], rows := [[some 0]] }
  else none

/-- Branch of the zero-prevalence geography. -/
def brZeroPrev : SearchBranch :=
  { parent_dir := "r/S", geography := "S", double := none, anachron := none,
    highdist := none, early_stats := some "r/S/early_stats.tsv",
    late_stats := some "r/S/late_stats.tsv" }

/-- Search tree of the zero-prevalence run. -/
def treeZeroPrev : List (String × SearchBranch) := [("S", brZeroPrev)]

/-- The row the zero-prevalence run produces: prevalence exactly 0 and the
rate string "1 in inf". -/
def rowZeroPrev : StatsRow :=
  { geography := "S", input := some 1000, doubleCount := some 0,
    doublePrev := some (.fin 0), doubleRate := some "1 in inf",
    anachronCount := none, anachronPrev := none, anachronRate := none,
    highdistCount := none, highdistPrev := none, highdistRate := none }

/-- Statistics filesystem for the abort run: geography A has a valid early
stats file; geography B's located anachronistic directory holds no
fixed-name TSV. -/
def fsAbort : StatsFS := fun p =>
  if p = "r/A/early_stats.tsv" then
    some { cols := ["num_seqs"], rows := [[some 1000]] }
  else none

/-- Branch of the healthy geography A in the abort run. -/
def brAbortA : SearchBranch :=
  { parent_dir := "r/A", geography := "A", double := none, anachron := none,
    highdist := none, early_stats := some "r/A/early_stats.tsv",
    late_stats := none }

/-- Branch of geography B in the abort run: its anachronistic directory was
located, but the fixed-name TSV inside it is missing. -/
def brAbortB : SearchBranch :=
  { parent_dir := "r/B", geography := "B", double := none,
    anachron := some "r/B/meta_candidates", highdist := none,
    early_stats := none, late_stats := none }

/-- Search tree of the abort run. -/
def treeAbort : List (String × SearchBranch) := [("A", brAbortA), ("B", brAbortB)]

/-- Statistics filesystem whose early-stats file lacks the num_seqs
column. -/
def fsNoCol : StatsFS := fun p =>
  if p = "r/C/early_stats.tsv" then
    some { cols := ["other"], rows := [[some 7]] }
  else none

/-- Branch pointing at the malformed early-stats file. -/
def brNoCol : SearchBranch :=
  { parent_dir := "r/C", geography := "C", double := none, anachron := none,
    highdist := none, early_stats := some "r/C/early_stats.tsv",
    late_stats := none }

/-- Search tree of the malformed-stats run. -/
def treeNoCol : List (String × SearchBranch) := [("C", brNoCol)]

/-- Anachronistic metadata table with zero data rows (meaningful count 0). -/
def dfAnaEmpty : DataFrame := { cols := ["c"], rows := [] }

/-- High-distance metadata table with one data row. -/
def dfHighOne : DataFrame := { cols := ["c"], rows := [[some 1]] }

/-- Statistics filesystem for the reader witness: both fixed-name TSVs exist
inside directory "d". -/
def fsReaders : StatsFS := fun p =>
  if p = "d/anachronistic_metadata_only_candidates.tsv" then some dfAnaEmpty
  else if p = "d/high_distance_candidates.tsv" then some dfHighOne
  else none

/-- A consolidator filesystem with no files at all. -/
def fsMetaEmpty : MetaFS := fun _ => none

/-- First contributing geography's anachronistic metadata table. -/
def tblX : StrTable := { header := ["a", "b"], rows := [["1", "2"], ["3", "4"]] }

/-- Second contributing geography's anachronistic metadata table (narrower
schema). -/
def tblY : StrTable := { header := ["a"], rows := [["9"]] }

/-- Consolidator filesystem holding the two contributors' fixed-name TSVs. -/
def fsMetaW : MetaFS := fun p =>
  if p = "r/X/meta_candidates/anachronistic_metadata_only_candidates.tsv" then some tblX
  else if p = "r/Y/meta_candidates/anachronistic_metadata_only_candidates.tsv" then
    some tblY
  else none

/-- Branch of contributing geography X. -/
def brMetaX : SearchBranch :=
  { parent_dir := "r/X", geography := "X", double := none,
    anachron := some "r/X/meta_candidates", highdist := none,
    early_stats := none, late_stats := none }

/-- Branch of contributing geography Y. -/
def brMetaY : SearchBranch :=
  { parent_dir := "r/Y", geography := "Y", double := none,
    anachron := some "r/Y/meta_candidates", highdist := none,
    early_stats := none, late_stats := none }

/-- Consolidator witness tree: a non-contributor first, then two
contributors. -/
def treeMetaW : List (String × SearchBranch) :=
  [("B", brNull), ("X", brMetaX), ("Y", brMetaY)]

/-! ## Lemmas on the `str.replace` model -/

theorem pyReplaceFuel_nil (pat rep : List Char) (n : Nat) :
    pyReplaceFuel pat rep n [] = [] := by
  cases n <;> rfl

theorem length_drop_cons_le (pat : List Char) (hp : pat ≠ []) (c : Char) (cs : List Char) :
    (List.drop pat.length (c :: cs)).length ≤ cs.length := by
  have h1 : 0 < pat.length := List.length_pos.mpr hp
  simp only [List.length_drop, List.length_cons]
  omega

theorem pyReplaceFuel_congr (pat rep : List Char) (hp : pat ≠ []) :
    ∀ (n m : Nat) (s : List Char), s.length ≤ n → s.length ≤ m →
      pyReplaceFuel pat rep n s = pyReplaceFuel pat rep m s := by
  intro n
  induction n with
  | zero =>
    intro m s hn _
    have hs : s = [] := List.eq_nil_of_length_eq_zero (Nat.le_zero.mp hn)
    subst hs
    simp [pyReplaceFuel_nil]
  | succ n ih =>
    intro m s hn hm
    cases s with
    | nil => simp [pyReplaceFuel_nil]
    | cons c cs =>
      cases m with
      | zero =>
        exfalso
        simp only [List.length_cons] at hm
        omega
      | succ m' =>
        simp only [List.length_cons] at hn hm
        simp only [pyReplaceFuel]
        by_cases h : pat.isPrefixOf (c :: cs)
        · simp only [h, if_true]
          have hd := length_drop_cons_le pat hp c cs
          exact congrArg (rep ++ ·)
            (ih m' (List.drop pat.length (c :: cs)) (by omega) (by omega))
        · simp only [h, if_false]
          exact congrArg (c :: ·) (ih m' cs (by omega) (by omega))

theorem pyReplace_cons_pos (pat rep : List Char) (hp : pat ≠ []) (c : Char)
    (cs : List Char) (h : pat.isPrefixOf (c :: cs) = true) :
    pyReplace pat rep (c :: cs) =
      rep ++ pyReplace pat rep (List.drop pat.length (c :: cs)) := by
  unfold pyReplace
  simp only [List.length_cons, pyReplaceFuel, h, if_true]
  have hd := length_drop_cons_le pat hp c cs
  exact congrArg (rep ++ ·)
    (pyReplaceFuel_congr pat rep hp cs.length (List.drop pat.length (c :: cs)).length
      (List.drop pat.length (c :: cs)) hd (Nat.le_refl _))

theorem pyReplace_cons_neg (pat rep : List Char) (c : Char) (cs : List Char)
    (h : pat.isPrefixOf (c :: cs) = false) :
    pyReplace pat rep (c :: cs) = c :: pyReplace pat rep cs := by
  unfold pyReplace
  simp [List.length_cons, pyReplaceFuel, h]

/-! ## Lemmas on the leftmost-cut removal formulation -/

theorem isPrefixOf_nil_iff (pat : List Char) :
    pat.isPrefixOf ([] : List Char) = true ↔ pat = [] := by
  cases pat <;> simp [List.isPrefixOf]

theorem firstOcc_nil (pat : List Char) (hp : pat ≠ []) : firstOcc pat [] = none := by
  simp only [firstOcc]
  rw [if_neg]
  intro h
  exact hp ((isPrefixOf_nil_iff pat).mp h)

theorem firstOcc_lt_length (pat : List Char) (hp : pat ≠ []) :
    ∀ (s : List Char) (i : Nat), firstOcc pat s = some i → i < s.length := by
  intro s
  induction s with
  | nil =>
    intro i h
    rw [firstOcc_nil pat hp] at h
    exact absurd h (by simp)
  | cons c cs ih =>
    intro i h
    by_cases hpre : pat.isPrefixOf (c :: cs)
    · have h0 : 0 = i := by
        simp only [firstOcc, hpre, if_true, Option.some.injEq] at h
        exact h
      simp only [List.length_cons]
      omega
    · rcases hfo : firstOcc pat cs with _ | j
      · exfalso
        simp [firstOcc, hpre, hfo] at h
      · have hj := ih j hfo
        have hij : j + 1 = i := by
          simp [firstOcc, hpre, hfo] at h
          exact h
        simp only [List.length_cons]
        omega

theorem removeEveryFuel_nil (pat : List Char) (hp : pat ≠ []) (n : Nat) :
    removeEveryFuel pat n [] = [] := by
  cases n with
  | zero => rfl
  | succ n => simp [removeEveryFuel, firstOcc_nil pat hp]

theorem removeEveryFuel_congr (pat : List Char) (hp : pat ≠ []) :
    ∀ (n m : Nat) (s : List Char), s.length ≤ n → s.length ≤ m →
      removeEveryFuel pat n s = removeEveryFuel pat m s := by
  intro n
  induction n with
  | zero =>
    intro m s hn _
    have hs : s = [] := List.eq_nil_of_length_eq_zero (Nat.le_zero.mp hn)
    subst hs
    simp [removeEveryFuel_nil pat hp]
  | succ n ih =>
    intro m s hn hm
    cases m with
    | zero =>
      have hs : s = [] := List.eq_nil_of_length_eq_zero (Nat.le_zero.mp hm)
      subst hs
      simp [removeEveryFuel_nil pat hp]
    | succ m' =>
      rcases hfo : firstOcc pat s with _ | i
      · simp [removeEveryFuel, hfo]
      · have hi := firstOcc_lt_length pat hp s i hfo
        have h1 : 0 < pat.length := List.length_pos.mpr hp
        simp only [removeEveryFuel, hfo]
        have hd : (List.drop (i + pat.length) s).length ≤ n := by
          simp only [List.length_drop]
          omega
        have hd' : (List.drop (i + pat.length) s).length ≤ m' := by
          simp only [List.length_drop]
          omega
        exact congrArg (List.take i s ++ ·)
          (ih m' (List.drop (i + pat.length) s) hd hd')

theorem removeEvery_of_none (pat : List Char) (s : List Char)
    (h : firstOcc pat s = none) : removeEvery pat s = s := by
  cases s with
  | nil => rfl
  | cons c cs => simp [removeEvery, List.length_cons, removeEveryFuel, h]

theorem removeEvery_of_some (pat : List Char) (hp : pat ≠ []) (s : List Char) (i : Nat)
    (h : firstOcc pat s = some i) :
    removeEvery pat s =
      List.take i s ++ removeEvery pat (List.drop (i + pat.length) s) := by
  cases s with
  | nil =>
    rw [firstOcc_nil pat hp] at h
    exact absurd h (by simp)
  | cons c cs =>
    have hi := firstOcc_lt_length pat hp (c :: cs) i h
    have h1 : 0 < pat.length := List.length_pos.mpr hp
    simp only [removeEvery, List.length_cons, removeEveryFuel, h]
    refine congrArg (List.take i (c :: cs) ++ ·) ?_
    refine removeEveryFuel_congr pat hp cs.length _ _ ?_ (Nat.le_refl _)
    simp only [List.length_drop, List.length_cons]
    simp only [List.length_cons] at hi
    omega

theorem pyReplace_empty_eq_removeEvery (pat : List Char) (hp : pat ≠ []) :
    ∀ s, pyReplace pat [] s = removeEvery pat s := by
  have main : ∀ (n : Nat) (s : List Char), s.length ≤ n →
      pyReplace pat [] s = removeEvery pat s := by
    intro n
    induction n with
    | zero =>
      intro s hn
      have hs : s = [] := List.eq_nil_of_length_eq_zero (Nat.le_zero.mp hn)
      subst hs
      rfl
    | succ n ih =>
      intro s hn
      cases s with
      | nil => rfl
      | cons c cs =>
        simp only [List.length_cons] at hn
        by_cases h : pat.isPrefixOf (c :: cs)
        · rw [pyReplace_cons_pos pat [] hp c cs h]
          have hfo : firstOcc pat (c :: cs) = some 0 := by
            simp [firstOcc, h]
          rw [removeEvery_of_some pat hp (c :: cs) 0 hfo]
          simp only [List.take_zero, List.nil_append, Nat.zero_add]
          exact ih (List.drop pat.length (c :: cs))
            (Nat.le_trans (length_drop_cons_le pat hp c cs) (by omega))
        · rw [pyReplace_cons_neg pat [] c cs (Bool.eq_false_iff.mpr h)]
          have ihcs := ih cs (by omega)
          rcases hfo : firstOcc pat cs with _ | i
          · have : firstOcc pat (c :: cs) = none := by
              simp [firstOcc, h, hfo]
            rw [removeEvery_of_none pat (c :: cs) this,
              removeEvery_of_none pat cs hfo] at *
            rw [ihcs]
          · have hstep : firstOcc pat (c :: cs) = some (i + 1) := by
              simp [firstOcc, h, hfo]
            rw [removeEvery_of_some pat hp (c :: cs) (i + 1) hstep]
            have harith : i + 1 + pat.length = (i + pat.length) + 1 := by omega
            rw [harith, List.drop_succ_cons, List.take_succ_cons]
            rw [removeEvery_of_some pat hp cs i hfo] at ihcs
            rw [ihcs]
            rfl
  intro s
  exact main s.length s (Nat.le_refl _)

theorem pyReplace_underscore (s : List Char) :
    pyReplace ['_'] [' '] s = s.map substUnderscore := by
  induction s with
  | nil => rfl
  | cons c cs ih =>
    by_cases h : c = '_'
    · subst h
      have hpre : (['_'] : List Char).isPrefixOf ('_' :: cs) = true := by
        simp [List.isPrefixOf]
      rw [pyReplace_cons_pos ['_'] [' '] (by simp) '_' cs hpre]
      simp only [List.length_singleton, List.drop_succ_cons, List.drop_zero,
        List.map_cons, List.singleton_append]
      rw [ih]
      rfl
    · have hpre : (['_'] : List Char).isPrefixOf (c :: cs) = false := by
        simp [List.isPrefixOf]
        exact fun hc => absurd hc.symm h
      rw [pyReplace_cons_neg ['_'] [' '] c cs hpre]
      simp only [List.map_cons]
      rw [ih]
      have : substUnderscore c = c := by
        simp [substUnderscore, h]
      rw [this]

/-! ## Claim C6: the name-cleaning rewrite -/

/-- C6 counterexample: the claim says the FIRST occurrence of each marker is
removed, but Python's `str.replace` removes every occurrence; on the raw
directory name "GISAID_GISAID_X" the code produces "X" while the claim's
first-occurrence reading produces "GISAID X". -/
theorem c6_counterexample_first_occurrence :
    clean_string "GISAID_GISAID_X" = "X" ∧
    cleanStringSpecFirst "GISAID_GISAID_X" = "GISAID X" ∧
    clean_string "GISAID_GISAID_X" ≠ cleanStringSpecFirst "GISAID_GISAID_X" :=
  ⟨by decide, by decide, by decide⟩

/-- C6 (amended): for every raw subdirectory name, the clean geography name
is obtained by removing EVERY (left-to-right, non-overlapping) occurrence of
the literal substrings "LocalDataset_", then "GISAID_", then "GenBank_" (in
that order, unanchored), then replacing every underscore with a space, with
no case normalization and no trimming; e.g. "GISAID_North_America" maps to
"North America".  Removal of every occurrence is stated by the independent
leftmost-cut recursion `removeEvery`, underscore replacement as a pointwise
character map. -/
theorem c6_clean_string_removes_every_occurrence (s : String) :
    clean_string s =
      ((removeEvery gbPat (removeEvery gisPat (removeEvery ldPat s.toList))).map
        substUnderscore).asString ∧
    clean_string "GISAID_North_America" = "North America" := by
  constructor
  · unfold clean_string cleanChars
    have h1 : ("_".toList : List Char) = ['_'] := rfl
    have h2 : (" ".toList : List Char) = [' '] := rfl
    rw [h1, h2, pyReplace_underscore,
      pyReplace_empty_eq_removeEvery ldPat (by decide),
      pyReplace_empty_eq_removeEvery gisPat (by decide),
      pyReplace_empty_eq_removeEvery gbPat (by decide)]
  · decide

/-! ## Lemmas on the Python-dict model and the search tree -/

theorem pyLookup_pyInsert {α : Type} (k g : String) (v : α) :
    ∀ d : List (String × α),
      pyLookup g (pyInsert k v d) = if k = g then some v else pyLookup g d := by
  intro d
  induction d with
  | nil => simp [pyInsert, pyLookup]
  | cons hd rest ih =>
    obtain ⟨k', v'⟩ := hd
    by_cases hk : k' = k
    · subst hk
      by_cases hg : k' = g <;> simp [pyInsert, pyLookup, hg]
    · by_cases hg : k' = g
      · subst hg
        have hkg : ¬(k = k') := fun he => hk he.symm
        simp [pyInsert, hk, pyLookup, hkg]
      · simp [pyInsert, hk, pyLookup, hg, ih]

theorem mem_pyInsert {α : Type} (k : String) (v : α) :
    ∀ (d : List (String × α)) (x : String × α),
      x ∈ pyInsert k v d → x = (k, v) ∨ x ∈ d := by
  intro d
  induction d with
  | nil =>
    intro x hx
    simp [pyInsert] at hx
    exact Or.inl hx
  | cons hd rest ih =>
    obtain ⟨k', v'⟩ := hd
    intro x hx
    by_cases hk : k' = k
    · subst hk
      simp only [pyInsert, if_pos rfl] at hx
      rcases List.mem_cons.mp hx with h | h
      · exact Or.inl h
      · exact Or.inr (List.mem_cons_of_mem _ h)
    · simp only [pyInsert, if_neg hk] at hx
      rcases List.mem_cons.mp hx with h | h
      · exact Or.inr (h ▸ List.mem_cons_self _ _)
      · rcases ih x h with h' | h'
        · exact Or.inl h'
        · exact Or.inr (List.mem_cons_of_mem _ h')

theorem keys_pyInsert {α : Type} (k : String) (v : α) :
    ∀ d : List (String × α),
      (pyInsert k v d).map Prod.fst =
        if k ∈ d.map Prod.fst then d.map Prod.fst else d.map Prod.fst ++ [k] := by
  intro d
  induction d with
  | nil => simp [pyInsert]
  | cons hd rest ih =>
    obtain ⟨k', v'⟩ := hd
    by_cases hk : k' = k
    · subst hk
      simp [pyInsert]
    · simp only [pyInsert, if_neg hk, List.map_cons, ih]
      by_cases hmem : k ∈ rest.map Prod.fst
      · have : k ∈ k' :: rest.map Prod.fst := List.mem_cons_of_mem _ hmem
        simp [hmem, this]
      · have hne : k ∉ k' :: rest.map Prod.fst := by
          intro hcon
          rcases List.mem_cons.mp hcon with h | h
          · exact hk h.symm
          · exact hmem h
        simp [hmem, hne]

theorem nodup_keys_pyInsert {α : Type} (k : String) (v : α) (d : List (String × α))
    (h : (d.map Prod.fst).Nodup) : ((pyInsert k v d).map Prod.fst).Nodup := by
  rw [keys_pyInsert]
  by_cases hmem : k ∈ d.map Prod.fst
  · simpa [hmem] using h
  · rw [if_neg hmem]
    refine List.Nodup.append h (List.nodup_singleton k) ?_
    intro a ha hak
    rcases List.mem_singleton.mp hak with rfl
    exact hmem ha

theorem nodup_keys_buildTree (fs : GlobFS) :
    ∀ (pairs : List (String × String)) (acc : List (String × SearchBranch)),
      (acc.map Prod.fst).Nodup → ((buildTree fs pairs acc).map Prod.fst).Nodup := by
  intro pairs
  induction pairs with
  | nil => intro acc h; exact h
  | cons hd rest ih =>
    obtain ⟨g, p⟩ := hd
    intro acc h
    exact ih _ (nodup_keys_pyInsert g (mkBranch fs g p) acc h)

theorem mem_buildTree (fs : GlobFS) :
    ∀ (pairs : List (String × String)) (acc : List (String × SearchBranch))
      (gb : String × SearchBranch),
      gb ∈ buildTree fs pairs acc →
      gb ∈ acc ∨ ∃ g p, (g, p) ∈ pairs ∧ gb = (g, mkBranch fs g p) := by
  intro pairs
  induction pairs with
  | nil =>
    intro acc gb h
    exact Or.inl h
  | cons hd rest ih =>
    obtain ⟨g, p⟩ := hd
    intro acc gb h
    rcases ih _ gb h with hacc | ⟨g', p', hp', rfl⟩
    · rcases mem_pyInsert g (mkBranch fs g p) acc gb hacc with rfl | hmem
      · exact Or.inr ⟨g, p, List.mem_cons_self _ _, rfl⟩
      · exact Or.inl hmem
    · exact Or.inr ⟨g', p', List.mem_cons_of_mem _ hp', rfl⟩

theorem pyLookup_buildTree (fs : GlobFS) (g : String) :
    ∀ (pairs : List (String × String)) (acc : List (String × SearchBranch)),
      pyLookup g (buildTree fs pairs acc) =
        match lastMatchPath g pairs with
        | some p => some (mkBranch fs g p)
        | none => pyLookup g acc := by
  intro pairs
  induction pairs with
  | nil => intro acc; rfl
  | cons hd rest ih =>
    obtain ⟨k, p⟩ := hd
    intro acc
    simp only [buildTree]
    rw [ih]
    rcases hl : lastMatchPath g rest with _ | q
    · simp only [lastMatchPath, hl]
      rw [pyLookup_pyInsert]
      by_cases hk : k = g
      · subst hk
        simp
      · simp [hk]
    · simp [lastMatchPath, hl]

theorem lastMatchPath_append (g : String) :
    ∀ xs ys : List (String × String),
      lastMatchPath g (xs ++ ys) =
        match lastMatchPath g ys with
        | some q => some q
        | none => lastMatchPath g xs := by
  intro xs ys
  induction xs with
  | nil =>
    simp only [List.nil_append]
    cases lastMatchPath g ys <;> rfl
  | cons hd xs ih =>
    obtain ⟨k, p⟩ := hd
    simp only [List.cons_append, lastMatchPath, List.append_eq]
    rw [ih]
    rcases lastMatchPath g ys with _ | q <;> rcases lastMatchPath g xs with _ | r <;> rfl

theorem lastMatchPath_of_not_mem (g : String) :
    ∀ l : List (String × String), (∀ x ∈ l, x.1 ≠ g) → lastMatchPath g l = none := by
  intro l
  induction l with
  | nil => intro _; rfl
  | cons hd rest ih =>
    obtain ⟨k, p⟩ := hd
    intro h
    have hrest := ih (fun x hx => h x (List.mem_cons_of_mem _ hx))
    have hk : k ≠ g := h (k, p) (List.mem_cons_self _ _)
    simp [lastMatchPath, hrest, hk]

theorem mem_keys_of_pyLookup {α : Type} (g : String) :
    ∀ (d : List (String × α)) (v : α),
      pyLookup g d = some v → g ∈ d.map Prod.fst := by
  intro d
  induction d with
  | nil =>
    intro v h
    exact absurd h (by simp [pyLookup])
  | cons hd rest ih =>
    obtain ⟨k, v'⟩ := hd
    intro v h
    by_cases hk : k = g
    · simp [hk]
    · rw [pyLookup, if_neg hk] at h
      simpa using Or.inr (ih v h)

theorem firstMatchSpec_head? (l : List String) : firstMatchSpec l l.head? := by
  constructor
  · intro h
    simp [h]
  · intro x xs h
    simp [h]

/-! ## Claim C7: artifact search stores the first match or `None` -/

/-- C7: for every filesystem and starter paths, the search-tree builder
returns `Ok` (missing artifacts never cause an error; the underlying glob
listing is total, so an error is returned only — vacuously — when listing
fails), and every stored branch field is `None` exactly on zero matches and
otherwise the first match returned. -/
theorem c7_first_match_or_none (fs : GlobFS) (sp : StarterPaths) :
    (∃ tree, define_search_tree fs sp = .ok tree) ∧
    (∀ tree gb, define_search_tree fs sp = .ok tree → gb ∈ tree →
      firstMatchSpec (fs (gb.2.parent_dir ++ "/*double_candidates")) gb.2.double ∧
      firstMatchSpec (fs (gb.2.parent_dir ++ "/*metadata_candidates")) gb.2.anachron ∧
      firstMatchSpec (fs (gb.2.parent_dir ++ "/*high_distance_clusters")) gb.2.highdist ∧
      firstMatchSpec (fs (gb.2.parent_dir ++ "/*early_stats.tsv")) gb.2.early_stats ∧
      firstMatchSpec (fs (gb.2.parent_dir ++ "/*late_stats.tsv")) gb.2.late_stats) := by
  constructor
  · exact ⟨_, rfl⟩
  · intro tree gb htree hmem
    have htree' : buildTree fs (sp.geo.zip sp.path) [] = tree :=
      Except.ok.inj htree
    rw [← htree'] at hmem
    rcases mem_buildTree fs (sp.geo.zip sp.path) [] gb hmem with hacc | ⟨g, p, _, rfl⟩
    · exact absurd hacc (List.not_mem_nil gb)
    · refine ⟨?_, ?_, ?_, ?_, ?_⟩ <;>
        simpa [mkBranch] using firstMatchSpec_head? _

/-- C7 witness: a concrete filesystem in which the double-candidates search
has two matches (first stored) and the early-stats search has none
(`None` stored), with the builder returning `Ok`. -/
theorem c7_witness :
    define_search_tree globW spW = .ok [("G", mkBranch globW "G" "r/G")] ∧
    (mkBranch globW "G" "r/G").double = some "r/G/a_double_candidates" ∧
    (mkBranch globW "G" "r/G").early_stats = none := by
  have h := (c7_first_match_or_none globW spW).2
    [("G", mkBranch globW "G" "r/G")] ("G", mkBranch globW "G" "r/G") rfl
    (List.mem_singleton.mpr rfl)
  refine ⟨rfl, ?_, ?_⟩
  · exact h.1.2 "r/G/a_double_candidates" ["r/G/b_double_candidates"] rfl
  · exact h.2.2.2.1.1 rfl

/-! ## Claim C10: duplicate clean names silently overwrite -/

/-- C10: when two raw subdirectory names normalize to the same clean
geography name (and no later subdirectory shares it), both construction
steps still succeed with no error, the resulting tree has exactly one entry
under that name, and its branch is the one built from the raw directory
listed later. -/
theorem c10_duplicate_clean_name_overwrites (fs : GlobFS) (root d1 d2 : String)
    (ds1 ds2 ds3 : List String) (sp : StarterPaths)
    (tree : List (String × SearchBranch))
    (hdup : clean_string d1 = clean_string d2)
    (hlast : ∀ d ∈ ds3, clean_string d ≠ clean_string d2)
    (hc : construct_file_paths root (ds1 ++ d1 :: (ds2 ++ d2 :: ds3)) = .ok sp)
    (ht : define_search_tree fs sp = .ok tree) :
    pyLookup (clean_string d2) tree =
      some (mkBranch fs (clean_string d2) (root ++ "/" ++ d2)) ∧
    (tree.map Prod.fst).count (clean_string d2) = 1 := by
  have hne : ¬((ds1 ++ d1 :: (ds2 ++ d2 :: ds3)).length = 0) := by
    simp
  rw [construct_file_paths, if_neg hne] at hc
  have hsp := Except.ok.inj hc
  have hgeo : sp.geo = (ds1 ++ d1 :: (ds2 ++ d2 :: ds3)).map clean_string := by
    rw [← hsp]
  have hpath : sp.path =
      (ds1 ++ d1 :: (ds2 ++ d2 :: ds3)).map (fun d => root ++ "/" ++ d) := by
    rw [← hsp]
  have htree := Except.ok.inj ht
  subst htree
  have hzip : ((ds1 ++ d1 :: (ds2 ++ d2 :: ds3)).map clean_string).zip
      ((ds1 ++ d1 :: (ds2 ++ d2 :: ds3)).map (fun d => root ++ "/" ++ d)) =
      (ds1 ++ d1 :: (ds2 ++ d2 :: ds3)).map
        (fun d => (clean_string d, root ++ "/" ++ d)) :=
    List.zip_map' _ _ _
  have h3 : lastMatchPath (clean_string d2)
      (ds3.map (fun d => (clean_string d, root ++ "/" ++ d))) = none := by
    refine lastMatchPath_of_not_mem _ _ ?_
    intro x hx
    rcases List.mem_map.mp hx with ⟨d, hd, rfl⟩
    exact hlast d hd
  have h1 : lastMatchPath (clean_string d2)
      (ds2.map (fun d => (clean_string d, root ++ "/" ++ d)) ++
        (clean_string d2, root ++ "/" ++ d2) ::
          ds3.map (fun d => (clean_string d, root ++ "/" ++ d))) =
      some (root ++ "/" ++ d2) := by
    rw [lastMatchPath_append]
    simp [lastMatchPath, h3]
  have hpairs : lastMatchPath (clean_string d2)
      ((ds1 ++ d1 :: (ds2 ++ d2 :: ds3)).map
        (fun d => (clean_string d, root ++ "/" ++ d))) =
      some (root ++ "/" ++ d2) := by
    simp only [List.map_append, List.map_cons]
    rw [lastMatchPath_append]
    simp [lastMatchPath, h1]
  constructor
  · rw [hgeo, hpath, hzip, pyLookup_buildTree, hpairs]
  · rw [hgeo, hpath, hzip]
    have hnodup := nodup_keys_buildTree fs
      ((ds1 ++ d1 :: (ds2 ++ d2 :: ds3)).map
        (fun d => (clean_string d, root ++ "/" ++ d))) [] (by simp)
    have hlook : pyLookup (clean_string d2)
        (buildTree fs ((ds1 ++ d1 :: (ds2 ++ d2 :: ds3)).map
          (fun d => (clean_string d, root ++ "/" ++ d))) []) =
        some (mkBranch fs (clean_string d2) (root ++ "/" ++ d2)) := by
      rw [pyLookup_buildTree, hpairs]
    have hmem := mem_keys_of_pyLookup (clean_string d2) _ _ hlook
    exact List.count_eq_one_of_mem hnodup hmem

/-- C10 witness: "GISAID_North_America" and "GenBank_North_America" both
clean to "North America"; the tree keeps one entry, the branch built from
the later directory. -/
theorem c10_witness :
    pyLookup (clean_string "GenBank_North_America") treeC10 =
      some (mkBranch globEmpty (clean_string "GenBank_North_America")
        ("res" ++ "/" ++ "GenBank_North_America")) ∧
    (treeC10.map Prod.fst).count (clean_string "GenBank_North_America") = 1 :=
  c10_duplicate_clean_name_overwrites globEmpty "res" "GISAID_North_America"
    "GenBank_North_America" [] [] [] spC10 treeC10 (by decide) (by simp)
    (by rfl) (by rfl)

/-! ## Lemmas on the statistics pipeline -/

theorem mapME_ok_get {α β : Type} (f : α → Except String β) :
    ∀ (l : List α) (l' : List β), mapME f l = .ok l' →
      ∀ (k : Nat) (a : α), l[k]? = some a → ∃ b, l'[k]? = some b ∧ f a = .ok b := by
  intro l
  induction l with
  | nil =>
    intro l' h k a ha
    simp at ha
  | cons x xs ih =>
    intro l' h k a ha
    rcases hfx : f x with e | b
    · rw [mapME, hfx] at h
      exact Except.noConfusion h
    · rcases hrest : mapME f xs with e | bs
      · rw [mapME, hfx, hrest] at h
        exact Except.noConfusion h
      · rw [mapME, hfx, hrest] at h
        have hl' := Except.ok.inj h
        subst hl'
        cases k with
        | zero =>
          have hax : a = x := by
            simpa using ha.symm
          subst hax
          exact ⟨b, by simp, hfx⟩
        | succ k =>
          simp only [List.getElem?_cons_succ] at ha ⊢
          exact ih bs hrest k a ha

theorem buildRows_get :
    ∀ (gs : List String) (is ls cs hs : List (Option Int)) (k : Nat) (r : StatsRow),
      (buildRows gs is ls cs hs)[k]? = some r →
      ∃ g i l c h, gs[k]? = some g ∧ is[k]? = some i ∧ ls[k]? = some l ∧
        cs[k]? = some c ∧ hs[k]? = some h ∧ r = mkStatsRow g i l c h := by
  intro gs
  induction gs with
  | nil =>
    intro is ls cs hs k r hr
    simp [buildRows] at hr
  | cons g gs ih =>
    intro is ls cs hs k r hr
    cases is with
    | nil => simp [buildRows] at hr
    | cons i is =>
      cases ls with
      | nil => simp [buildRows] at hr
      | cons l ls =>
        cases cs with
        | nil => simp [buildRows] at hr
        | cons c cs =>
          cases hs with
          | nil => simp [buildRows] at hr
          | cons h hs =>
            cases k with
            | zero =>
              have : mkStatsRow g i l c h = r := by
                simpa [buildRows] using hr
              exact ⟨g, i, l, c, h, by simp, by simp, by simp, by simp, by simp,
                this.symm⟩
            | succ k =>
              simp only [buildRows, List.getElem?_cons_succ] at hr ⊢
              exact ih is ls cs hs k r hr

theorem prevalence_none_right (c : Option Int) : prevalence c none = none := by
  cases c <;> rfl

theorem prevalence_none_left (i : Option Int) : prevalence none i = none := by
  cases i <;> rfl

theorem prevalence_zero_input (c : Option Int) : prevalence c (some 0) = none := by
  cases c with
  | none => rfl
  | some a => simp [prevalence, intTrueDiv]

theorem prevalence_some (c i : Int) (hi : i ≠ 0) :
    prevalence (some c) (some i) =
      some (.fin (((c : ℚ) / (i : ℚ)) * 100)) := by
  simp [prevalence, intTrueDiv, hi, pfMul100]

/-- Inversion of an `Ok` result of `stats_pipeline`: the four per-reader
columns all succeeded and the rows are their rowwise combination. -/
theorem stats_pipeline_ok (fs : StatsFS) (tree : List (String × SearchBranch))
    (rows : List StatsRow) (h : stats_pipeline fs tree = .ok rows) :
    ∃ inputs lates anas highs,
      mapME (fun gb => get_early_count fs gb.2.early_stats) tree = .ok inputs ∧
      mapME (fun gb => get_late_count fs gb.2.late_stats) tree = .ok lates ∧
      mapME (fun gb => summarize_anachrons fs gb.2.anachron) tree = .ok anas ∧
      mapME (fun gb => summarize_highdist fs gb.2.highdist) tree = .ok highs ∧
      rows = buildRows (tree.map (fun gb => gb.1)) inputs lates anas highs := by
  rw [stats_pipeline] at h
  split at h
  · exact Except.noConfusion h
  next inputs h1 =>
    split at h
    · exact Except.noConfusion h
    next lates h2 =>
      split at h
      · exact Except.noConfusion h
      next anas h3 =>
        split at h
        · exact Except.noConfusion h
        next highs h4 =>
          split at h
          · exact Except.noConfusion h
          next hz =>
            exact ⟨inputs, lates, anas, highs, h1, h2, h3, h4,
              (Except.ok.inj h).symm⟩

/-! ## Claim C1: prevalence columns and null propagation -/

/-- C1: in every successfully aggregated table, each prevalence column is
`100 * (category count / input count)` (exact on non-null, nonzero input),
it is null whenever the input count is null or zero, and a geography whose
early-stats artifact is absent gets a null input count and null prevalence
columns — never zero and never an error. -/
theorem c1_prevalence_null_iff_input_absent_or_zero (fs : StatsFS)
    (tree : List (String × SearchBranch)) (rows : List StatsRow)
    (h : stats_pipeline fs tree = .ok rows)
    (k : Nat) (gb : String × SearchBranch) (r : StatsRow)
    (hk : tree[k]? = some gb) (hr : rows[k]? = some r) :
    (gb.2.early_stats = none →
      r.input = none ∧ r.doublePrev = none ∧ r.anachronPrev = none ∧
        r.highdistPrev = none) ∧
    ((r.input = none ∨ r.input = some 0) →
      r.doublePrev = none ∧ r.anachronPrev = none ∧ r.highdistPrev = none) ∧
    (∀ c i, r.doubleCount = some c → r.input = some i → i ≠ 0 →
      r.doublePrev = some (.fin (100 * ((c : ℚ) / (i : ℚ))))) ∧
    (∀ c i, r.anachronCount = some c → r.input = some i → i ≠ 0 →
      r.anachronPrev = some (.fin (100 * ((c : ℚ) / (i : ℚ))))) ∧
    (∀ c i, r.highdistCount = some c → r.input = some i → i ≠ 0 →
      r.highdistPrev = some (.fin (100 * ((c : ℚ) / (i : ℚ))))) := by
  obtain ⟨inputs, lates, anas, highs, h1, h2, h3, h4, hrows⟩ :=
    stats_pipeline_ok fs tree rows h
  subst hrows
  obtain ⟨g, i, l, c, hd, hg, hi, hl, hc, hhd, hrow⟩ :=
    buildRows_get (tree.map (fun gb => gb.1)) inputs lates anas highs k r hr
  subst hrow
  obtain ⟨i', hi', hei⟩ := mapME_ok_get _ tree inputs h1 k gb hk
  obtain ⟨l', hl', hel⟩ := mapME_ok_get _ tree lates h2 k gb hk
  obtain ⟨c', hc', hec⟩ := mapME_ok_get _ tree anas h3 k gb hk
  obtain ⟨hd', hhd', hehd⟩ := mapME_ok_get _ tree highs h4 k gb hk
  have hii : i = i' := by
    rw [hi] at hi'
    exact Option.some.inj hi'
  subst hii
  refine ⟨?_, ?_, ?_, ?_, ?_⟩
  · intro habs
    rw [habs] at hei
    have hnone : (none : Option Int) = i := Except.ok.inj hei
    subst hnone
    exact ⟨rfl, prevalence_none_right _, prevalence_none_right _,
      prevalence_none_right _⟩
  · intro hcase
    rcases hcase with hnone | hzero
    · have : i = none := hnone
      subst this
      exact ⟨prevalence_none_right _, prevalence_none_right _,
        prevalence_none_right _⟩
    · have : i = some 0 := hzero
      subst this
      exact ⟨prevalence_zero_input _, prevalence_zero_input _,
        prevalence_zero_input _⟩
  · intro cv iv hcv hiv hnz
    have hle : l = some cv := hcv
    have hie : i = some iv := hiv
    subst hle
    subst hie
    simp only [mkStatsRow]
    rw [prevalence_some cv iv hnz]
    rw [mul_comm]
  · intro cv iv hcv hiv hnz
    have hce : c = some cv := hcv
    have hie : i = some iv := hiv
    subst hce
    subst hie
    simp only [mkStatsRow]
    rw [prevalence_some cv iv hnz]
    rw [mul_comm]
  · intro cv iv hcv hiv hnz
    have hge : hd = some cv := hcv
    have hie : i = some iv := hiv
    subst hge
    subst hie
    simp only [mkStatsRow]
    rw [prevalence_some cv iv hnz]
    rw [mul_comm]

/-- C1 witness: a geography with `early_stats` absent aggregates to a row
with a null input count and three null prevalence columns, with the pipeline
succeeding. -/
theorem c1_witness :
    stats_pipeline fsEmpty treeNull = .ok [mkStatsRow "B" none none none none] ∧
    ((mkStatsRow "B" none none none none).input = none ∧
     (mkStatsRow "B" none none none none).doublePrev = none ∧
     (mkStatsRow "B" none none none none).anachronPrev = none ∧
     (mkStatsRow "B" none none none none).highdistPrev = none) :=
  ⟨rfl,
    (c1_prevalence_null_iff_input_absent_or_zero fsEmpty treeNull
      [mkStatsRow "B" none none none none] rfl 0 ("B", brNull)
      (mkStatsRow "B" none none none none) rfl rfl).1 rfl⟩

/-! ## Claim C2: the rate computation leaks infinity on zero prevalence -/

/-- C2 at its failing input (the code-level divergence): a geography with
1000 input sequences and 0 double candidates gets Double Candidate
Prevalence exactly 0, and the unguarded `1 / (0 / 100)` float division makes
the user-visible Double Candidate Rate the string "1 in inf" — a formatted
infinity, not a null and not an explicit sentinel; the run does not raise. -/
theorem c2_zero_prevalence_rate_is_inf :
    stats_pipeline fsZeroPrev treeZeroPrev = .ok [rowZeroPrev] ∧
    rowZeroPrev.doublePrev = some (.fin 0) ∧
    rowZeroPrev.doubleRate = some "1 in inf" := by
  refine ⟨?_, rfl, rfl⟩
  with_unfolding_all rfl

/-! ## Claim C3: one bad source aborts the whole aggregation -/

/-- C3 at its failing inputs: with geography A perfectly healthy, geography
B's located anachronistic directory lacking its fixed-name TSV makes the
whole `stats_pipeline` abort with the reader's FileNotFoundError (losing
A's results too), and an early-stats file without the `num_seqs` column
likewise aborts the whole aggregation. -/
theorem c3_single_failure_aborts_aggregation :
    stats_pipeline fsAbort treeAbort =
      .error
        "FileNotFoundError: r/B/meta_candidates/anachronistic_metadata_only_candidates.tsv" ∧
    stats_pipeline fsNoCol treeNoCol = .error "ColumnNotFoundError: num_seqs" :=
  ⟨rfl, rfl⟩

/-! ## Claim C8: the per-source readers -/

/-- C8: every one of the four readers maps `None` to `None` (absence
propagates, never becomes zero, never an error), and on a present directory
the anachronistic / high-distance readers return the data-row count of the
fixed-name TSV constructed inside it. -/
theorem c8_reader_none_propagation_and_row_counts (fs : StatsFS) (p q : String)
    (dfA dfH : DataFrame)
    (hA : fs (p ++ "/anachronistic_metadata_only_candidates.tsv") = some dfA)
    (hH : fs (q ++ "/high_distance_candidates.tsv") = some dfH) :
    get_early_count fs none = .ok none ∧
    get_late_count fs none = .ok none ∧
    summarize_anachrons fs none = .ok none ∧
    summarize_highdist fs none = .ok none ∧
    summarize_anachrons fs (some p) = .ok (some (dfA.rows.length : Int)) ∧
    summarize_highdist fs (some q) = .ok (some (dfH.rows.length : Int)) := by
  refine ⟨rfl, rfl, rfl, rfl, ?_, ?_⟩
  · simp [summarize_anachrons, readCsv, hA]
  · simp [summarize_highdist, readCsv, hH]

/-- C8 witness: inside directory "d" the anachronistic TSV has zero data
rows and the high-distance TSV one; the readers return `some 0` and
`some 1`, and `some 0` is distinct from `none`. -/
theorem c8_witness :
    summarize_anachrons fsReaders (some "d") = .ok (some 0) ∧
    summarize_highdist fsReaders (some "d") = .ok (some 1) ∧
    (Except.ok (some (0 : Int)) : Except String (Option Int)) ≠ .ok none := by
  have h := c8_reader_none_propagation_and_row_counts fsReaders "d" "d"
    dfAnaEmpty dfHighOne rfl rfl
  exact ⟨h.2.2.2.2.1, h.2.2.2.2.2, by simp⟩

/-! ## Claim C9: the two count readers are extensionally equal -/

/-- C9: `_get_early_count` and `_get_late_count` are extensionally the same
function: on every filesystem and every optional path they return equal
results. -/
theorem c9_early_late_count_extensionally_equal (fs : StatsFS) (p : Option String) :
    get_early_count fs p = get_late_count fs p := by
  cases p <;> rfl

/-! ## Lemmas on the metadata consolidator -/

theorem stageMeta_pos (fs : MetaFS) (field : MetaField) (filename : String) :
    ∀ (tree : List (String × SearchBranch)) (t : Nat) (acc : List (List String)),
      0 < t →
      stageMeta fs field filename tree t acc =
        (t + (tree.filter (isContrib fs field filename)).length,
         acc ++ ((tree.filter (isContrib fs field filename)).map
           (taggedRows fs field filename)).flatten) := by
  intro tree
  induction tree with
  | nil =>
    intro t acc _
    simp [stageMeta]
  | cons gb rest ih =>
    intro t acc ht
    rcases hf : fs (metaPath filename (getField gb.2 field)) with _ | tbl
    · have hcon : isContrib fs field filename gb = false := by
        simp [isContrib, hf]
      simp only [stageMeta, hf]
      rw [ih t acc ht]
      simp [List.filter_cons, hcon]
    · have hcon : isContrib fs field filename gb = true := by
        simp [isContrib, hf]
      have htz : ¬(t = 0) := by omega
      simp only [stageMeta, hf, if_neg htz]
      rw [ih (t + 1) _ (by omega)]
      have htag : taggedRows fs field filename gb = (tagGeography gb.1 tbl).rows := by
        simp [taggedRows, hf]
      simp only [List.filter_cons, hcon, if_true, List.length_cons, List.map_cons,
        List.flatten_cons, htag, Prod.mk.injEq]
      constructor
      · omega
      · rw [List.append_assoc]

theorem stageMeta_start (fs : MetaFS) (field : MetaField) (filename : String) :
    ∀ (tree : List (String × SearchBranch)) (c0 : String × SearchBranch)
      (rest : List (String × SearchBranch)) (t0 : StrTable),
      tree.filter (isContrib fs field filename) = c0 :: rest →
      fs (metaPath filename (getField c0.2 field)) = some t0 →
      stageMeta fs field filename tree 0 [] =
        ((tree.filter (isContrib fs field filename)).length,
         (tagGeography c0.1 t0).header ::
           ((c0 :: rest).map (taggedRows fs field filename)).flatten) := by
  intro tree
  induction tree with
  | nil =>
    intro c0 rest t0 hfilter _
    simp at hfilter
  | cons gb rtree ih =>
    intro c0 rest t0 hfilter ht0
    rcases hf : fs (metaPath filename (getField gb.2 field)) with _ | tbl
    · have hcon : isContrib fs field filename gb = false := by
        simp [isContrib, hf]
      rw [List.filter_cons, if_neg (by simp [hcon])] at hfilter
      simp only [stageMeta, hf]
      rw [ih c0 rest t0 hfilter ht0]
      simp [List.filter_cons, hcon]
    · have hcon : isContrib fs field filename gb = true := by
        simp [isContrib, hf]
      rw [List.filter_cons, if_pos (by simp [hcon])] at hfilter
      have hc0 : gb = c0 := (List.cons.injEq _ _ _ _).mp hfilter |>.1
      have hrest : rtree.filter (isContrib fs field filename) = rest :=
        (List.cons.injEq _ _ _ _).mp hfilter |>.2
      subst hc0
      have htt : tbl = t0 := by
        rw [hf] at ht0
        exact Option.some.inj ht0
      subst htt
      simp only [stageMeta, hf, if_pos rfl]
      rw [stageMeta_pos fs field filename rtree 1 _ (by omega)]
      have htag : taggedRows fs field filename gb = (tagGeography gb.1 tbl).rows := by
        simp [taggedRows, hf]
      simp only [List.filter_cons, hcon, if_true, List.length_cons, List.map_cons,
        List.flatten_cons, htag, hrest, Prod.mk.injEq]
      constructor
      · omega
      · rfl

theorem findIdx_none_of_not_mem (s : String) :
    ∀ l : List String, s ∉ l → List.findIdx? (fun c => c = s) l = none := by
  intro l
  induction l with
  | nil => intro _; rfl
  | cons a l ih =>
    intro h
    have ha : ¬(a = s) := fun he => h (he ▸ List.mem_cons_self a l)
    have hl : s ∉ l := fun hm => h (List.mem_cons_of_mem _ hm)
    rw [List.findIdx?_cons]
    simp [ha, ih hl]

/-! ## Claim C4: one header, written by the first contributor -/

/-- C4: whenever at least one geography contributes to a metadata category,
the staged consolidated table is exactly one header line — the first
contributor's tagged header, fixing the column set — followed by every
contributor's geography-tagged data rows in order, appended without further
headers; tagging appends a "Geography" column holding the clean geography
name to the header and to every row (when no such column pre-exists). -/
theorem c4_single_header_from_first_contributor (fs : MetaFS)
    (tree : List (String × SearchBranch)) (field : MetaField) (filename : String)
    (c0 : String × SearchBranch) (rest : List (String × SearchBranch))
    (t0 : StrTable)
    (hfilter : tree.filter (isContrib fs field filename) = c0 :: rest)
    (ht0 : fs (metaPath filename (getField c0.2 field)) = some t0) :
    search_tree_meta fs tree field filename =
      some ((tagGeography c0.1 t0).header ::
        ((c0 :: rest).map (taggedRows fs field filename)).flatten) ∧
    ("Geography" ∉ t0.header →
      (tagGeography c0.1 t0).header = t0.header ++ ["Geography"] ∧
      (tagGeography c0.1 t0).rows = t0.rows.map (fun row => row ++ [c0.1])) := by
  constructor
  · rw [search_tree_meta,
      stageMeta_start fs field filename tree c0 rest t0 hfilter ht0]
    rw [if_neg]
    rw [hfilter]
    simp
  · intro hnomem
    have hidx : List.findIdx? (fun c => c = "Geography") t0.header = none :=
      findIdx_none_of_not_mem "Geography" t0.header hnomem
    rw [tagGeography, hidx]
    exact ⟨rfl, rfl⟩

/-- C4 witness: a non-contributor is skipped, the first contributor "X"
fixes the header (its columns plus "Geography"), and the second
contributor's rows are appended without a header. -/
theorem c4_witness :
    search_tree_meta fsMetaW treeMetaW .anachron
      "anachronistic_metadata_only_candidates.tsv" =
      some [["a", "b", "Geography"], ["1", "2", "X"], ["3", "4", "X"], ["9", "Y"]] := by
  have h := (c4_single_header_from_first_contributor fsMetaW treeMetaW .anachron
    "anachronistic_metadata_only_candidates.tsv" ("X", brMetaX) [("Y", brMetaY)]
    tblX (by rfl) rfl).1
  rw [h]
  rfl

/-! ## Claim C5: zero contributors produce no output, but scanning fails -/

/-- C5 at its failing input: with zero contributing geographies the
consolidator indeed produces no output file for the category (first half of
the claim), but `compile_metadata` then unconditionally scans the
never-produced arrow file and fails — downstream consumption errors instead
of treating the category as absent. -/
theorem c5_no_output_then_scan_errors :
    search_tree_meta fsMetaEmpty treeNull .anachron
      "anachronistic_metadata_only_candidates.tsv" = none ∧
    compile_metadata fsMetaEmpty treeNull =
      .error "FileNotFoundError: anachronistics-meta.arrow" :=
  ⟨rfl, rfl⟩

end PeakBagger
